import Mathlib

/-!
Shallow embedding of `whale_4h_screener.py`: a 4-hour OKX spot screener that
selects a universe of USDT-quoted instruments, computes per-instrument
trend/momentum/volume features from candles, filters and ranks passing
instruments, and sends a rate-limited notification guarded by a persisted
throttle state (daily counter plus per-instrument cooldowns).

Machine floats are embedded as rationals, timestamps as rationals (seconds),
and the ISO-8601 timestamp parser/printer pair used for cooldown entries is
kept abstract (any parser with `parse "" = none`, as `datetime.fromisoformat`
is). External transports (HTTP, Telegram) are represented by their already
decoded payloads; the run records which collaborators it consulted.
-/

namespace Whale4h

/-! ## Configuration constants (the AYARLAR block of the script) -/

def QUOTE : String := "USDT"

def MAX_SYMBOLS : Nat := 150

def VOL_SPIKE_LOOKBACK : Nat := 3

def VOL_BASELINE : Nat := 24

def VOL_RATIO_MIN : ℚ := 2

def LAST_CANDLE_RATIO_MIN : ℚ := 8 / 5

def EMA_FAST : Nat := 20

def EMA_SLOW : Nat := 50

def MIN_4H_RETURN_PCT : ℚ := 1

def RETURN_LOOKBACK : Nat := 5

def ENABLE_WHALE : Bool := true

def WHALE_NOTIONAL_USDT : ℚ := 50000

def DAILY_ALERT_LIMIT : Nat := 3

def COOLDOWN_HOURS : ℚ := 18

/-- Cooldown span in seconds: `timedelta(hours=COOLDOWN_HOURS)`. -/
def cooldownSpan : ℚ := COOLDOWN_HOURS * 3600

/-- Top-K size used in `results[:7]`. -/
def TOP_K : Nat := 7

/-! ## Data model -/

/-- One row of the `/api/v5/market/tickers` response: the instrument id and its
24h traded value in quote currency (`volCcy24h`).  The script reads only
`instId` from each row. -/
structure TickerRow where
  instId : String
  volCcy24h : ℚ
deriving DecidableEq, Repr

/-- A parsed candle row as built in `get_candles` (`ts, o, h, l, c, vol,
volCcy, volQuote`); `volQuote` is optional, as in the source where
`safe_float(c[7], None)` may yield `None`. -/
structure Candle where
  ts : Nat
  opn : ℚ
  high : ℚ
  low : ℚ
  close : ℚ
  vol : ℚ
  volCcy : ℚ
  volQuote : Option ℚ
deriving DecidableEq, Repr

/-- One public trade: price, size, side (`"buy"` / `"sell"` strings). -/
structure Trade where
  px : ℚ
  sz : ℚ
  side : String
deriving DecidableEq, Repr

/-- The dict returned by `analyze_inst` on success.  The source fields
`vol_ratio` and `last_ratio` are embedded as `vol_r` and `last_r`. -/
structure ScreenResult where
  instId : String
  close : ℚ
  ret : ℚ
  vol_r : ℚ
  last_r : ℚ
  ema_fast : ℚ
  ema_slow : ℚ
  whale_buy : ℚ
  whale_sell : ℚ
deriving DecidableEq, Repr

/-- The persisted throttle state: UTC date string, daily sent counter, and the
cooldown dict (instrument id to ISO timestamp string), embedded as an
association list. -/
structure ThrottleState where
  date : String
  sent : Nat
  cooldown : List (String × String)
deriving DecidableEq, Repr

/-! ## Association-list operations embedding the Python dict -/

/-- `state["cooldown"].get(instId)`. -/
def alookup (k : String) : List (String × String) → Option String
  | [] => none
  | (k1, v) :: rest => if k1 = k then some v else alookup k rest

/-- `state["cooldown"][k] = v`: update in place if present, else append. -/
def aset (m : List (String × String)) (k : String) (v : String) :
    List (String × String) :=
  match m with
  | [] => [(k, v)]
  | (k1, v1) :: rest =>
      if k1 = k then (k1, v) :: rest else (k1, v1) :: aset rest k v

/-! ## Universe Selector: `list_usdt_spot` -/

/-- Python `s.endswith(t)`, on the character sequences of the strings. -/
def strEndsWith (s t : String) : Bool := t.data.isSuffixOf s.data

/-- Python `s.startswith(t)`, on the character sequences of the strings. -/
def strStartsWith (s t : String) : Bool := t.data.isPrefixOf s.data

/-- The stable-base exclusion
`instId.startswith(("USDC-", "USDT-", "DAI-", "FDUSD-", "TUSD-"))`. -/
def isStableBase (instId : String) : Bool :=
  strStartsWith instId "USDC-" || strStartsWith instId "USDT-" ||
    strStartsWith instId "DAI-" || strStartsWith instId "FDUSD-" ||
    strStartsWith instId "TUSD-"

/-- Keep a row iff its id ends in `-USDT` and its base is not a stable. -/
def tickerKeep (instId : String) : Bool :=
  strEndsWith instId ("-" ++ QUOTE) && !(isStableBase instId)

/-- `list_usdt_spot`: filter the ticker rows in source order by id shape and
truncate to `MAX_SYMBOLS`.  The traded-value column is never consulted. -/
def list_usdt_spot (data : List TickerRow) : List String :=
  ((data.filter fun row => tickerKeep row.instId).map TickerRow.instId).take
    MAX_SYMBOLS

/-! ## Candle preprocessing: `get_candles` -/

/-- Stable insertion into a candle list ascending by timestamp. -/
def insertTs (x : Candle) : List Candle → List Candle
  | [] => [x]
  | y :: ys => if y.ts ≤ x.ts then y :: insertTs x ys else x :: y :: ys

/-- `df.sort_values("ts")`: sort candles ascending by timestamp. -/
def sortByTs : List Candle → List Candle
  | [] => []
  | x :: xs => insertTs x (sortByTs xs)

/-- `get_candles` post-processing: sort by timestamp; if every `volQuote` is
missing, approximate it by `volCcy * close`. -/
def get_candles (raw : List Candle) : List Candle :=
  if sortByTs raw = [] then sortByTs raw
  else if (sortByTs raw).all fun c => c.volQuote.isNone then
    (sortByTs raw).map fun c => { c with volQuote := some (c.volCcy * c.close) }
  else sortByTs raw

/-! ## Whale flow: `get_whale_flow` -/

/-- Sum buy and sell notionals over trades whose notional is at least the
whale threshold. -/
def get_whale_flow (trades : List Trade) : ℚ × ℚ :=
  trades.foldl
    (fun acc t =>
      let notional := t.px * t.sz
      if WHALE_NOTIONAL_USDT ≤ notional then
        if t.side = "buy" then (acc.1 + notional, acc.2)
        else if t.side = "sell" then (acc.1, acc.2 + notional)
        else acc
      else acc)
    (0, 0)

/-! ## Feature extraction pieces of `analyze_inst` -/

/-- `series.ewm(span=n, adjust=False).mean().iloc[-1]`: recursive EMA seeded
with the first value, smoothing `2 / (n + 1)`. -/
def emaLast (n : Nat) (xs : List ℚ) : ℚ :=
  match xs with
  | [] => 0
  | x :: rest =>
      rest.foldl (fun prev y => prev + (2 / ((n : ℚ) + 1)) * (y - prev)) x

/-- Arithmetic mean of a list (`Series.mean`). -/
def listMean (xs : List ℚ) : ℚ := xs.sum / xs.length

/-- `xs.iloc[-k]` for `1 ≤ k ≤ len`: the k-th element from the end. -/
def nthFromEnd (k : Nat) (xs : List ℚ) : ℚ :=
  (xs.drop (xs.length - k)).headD 0

/-- `xs.iloc[-k:]`: the last `k` elements. -/
def lastN (k : Nat) (xs : List ℚ) : List ℚ := xs.drop (xs.length - k)

/-- `xs.iloc[-(VOL_BASELINE+VOL_SPIKE_LOOKBACK):-VOL_SPIKE_LOOKBACK]`. -/
def baseSlice (xs : List ℚ) : List ℚ :=
  (xs.drop (xs.length - (VOL_BASELINE + VOL_SPIKE_LOOKBACK))).take VOL_BASELINE

/-- Minimum history: `EMA_SLOW + VOL_BASELINE + VOL_SPIKE_LOOKBACK + 5`. -/
def MIN_LEN : Nat := EMA_SLOW + VOL_BASELINE + VOL_SPIKE_LOOKBACK + 5

/-- The close column of a processed frame. -/
def closeCol (df : List Candle) : List ℚ := df.map Candle.close

/-- The quote-volume column of a processed frame (post `get_candles`; a still
missing `volQuote` reads as 0). -/
def volqCol (df : List Candle) : List ℚ :=
  df.map fun c => c.volQuote.getD 0

/-- `close.iloc[-1]`. -/
def lastClose (df : List Candle) : ℚ := nthFromEnd 1 (closeCol df)

/-- `df["ema_fast"].iloc[-1]`. -/
def emaFastLast (df : List Candle) : ℚ := emaLast EMA_FAST (closeCol df)

/-- `df["ema_slow"].iloc[-1]`. -/
def emaSlowLast (df : List Candle) : ℚ := emaLast EMA_SLOW (closeCol df)

/-- `(close.iloc[-1] / close.iloc[-(RETURN_LOOKBACK+1)] - 1) * 100`. -/
def retOf (df : List Candle) : ℚ :=
  (lastClose df / nthFromEnd (RETURN_LOOKBACK + 1) (closeCol df) - 1) * 100

/-- `volq.iloc[-VOL_SPIKE_LOOKBACK:].mean()`. -/
def recentAvg (df : List Candle) : ℚ :=
  listMean (lastN VOL_SPIKE_LOOKBACK (volqCol df))

/-- The baseline volume average. -/
def baseAvg (df : List Candle) : ℚ := listMean (baseSlice (volqCol df))

/-- `recent_avg / base_avg`. -/
def volROf (df : List Candle) : ℚ := recentAvg df / baseAvg df

/-- `volq.iloc[-1] / base_avg`. -/
def lastROf (df : List Candle) : ℚ := nthFromEnd 1 (volqCol df) / baseAvg df

/-- The trend gate `close.iloc[-1] > ema_fast.iloc[-1] > ema_slow.iloc[-1]`. -/
def trendUp (df : List Candle) : Prop :=
  emaFastLast df < lastClose df ∧ emaSlowLast df < emaFastLast df

instance (df : List Candle) : Decidable (trendUp df) := by
  unfold trendUp
  infer_instance

/-- All four filter gates of `analyze_inst` as one predicate. -/
def gatesPass (df : List Candle) : Prop :=
  trendUp df ∧ MIN_4H_RETURN_PCT ≤ retOf df ∧ VOL_RATIO_MIN ≤ volROf df ∧
    LAST_CANDLE_RATIO_MIN ≤ lastROf df

instance (df : List Candle) : Decidable (gatesPass df) := by
  unfold gatesPass
  infer_instance

/-- `analyze_inst`: returns the optional screen result, paired with whether the
whale-flow trade fetch was performed.  `trades?` is the outcome of that fetch
when attempted (`none` embeds a transport error, swallowed by the bare
`except`, leaving whale sums at zero). -/
def analyze_inst (instId : String) (raw : List Candle)
    (trades? : Option (List Trade)) : Option ScreenResult × Bool :=
  let df := get_candles raw
  if df.length < MIN_LEN then (none, false)
  else if baseAvg df ≤ 0 then (none, false)
  else if ¬ trendUp df then (none, false)
  else if retOf df < MIN_4H_RETURN_PCT then (none, false)
  else if volROf df < VOL_RATIO_MIN then (none, false)
  else if lastROf df < LAST_CANDLE_RATIO_MIN then (none, false)
  else
    let wf :=
      if ENABLE_WHALE then
        ((match trades? with
          | some ts => get_whale_flow ts
          | none => (0, 0)), true)
      else ((0, 0), false)
    (some
      { instId := instId
        close := lastClose df
        ret := retOf df
        vol_r := volROf df
        last_r := lastROf df
        ema_fast := emaFastLast df
        ema_slow := emaSlowLast df
        whale_buy := wf.1.1
        whale_sell := wf.1.2 }, wf.2)

/-! ## Ranker: `results.sort(key=..., reverse=True)[:7]`

Python's sort is stable, and `reverse=True` keeps key-equal elements in input
order.  A stable sort is determined by the order alone, so the embedding uses
a stable insertion sort for the strict descending lexicographic key
`(vol_ratio, ret, whale_net)`. -/

/-- `whale_net(x) = whale_buy - whale_sell`. -/
def whale_net (x : ScreenResult) : ℚ := x.whale_buy - x.whale_sell

/-- The composite sort key `(x["vol_ratio"], x["ret"], whale_net(x))`. -/
def rkey (x : ScreenResult) : ℚ × ℚ × ℚ := (x.vol_r, x.ret, whale_net x)

/-- Strict lexicographic order on composite keys. -/
def klt (a b : ℚ × ℚ × ℚ) : Prop :=
  a.1 < b.1 ∨ (a.1 = b.1 ∧ (a.2.1 < b.2.1 ∨ (a.2.1 = b.2.1 ∧ a.2.2 < b.2.2)))

instance : DecidableRel klt := fun a b => by
  unfold klt
  infer_instance

/-- Reflexive closure of `klt`. -/
def kle (a b : ℚ × ℚ × ℚ) : Prop := klt a b ∨ a = b

/-- Stable descending insertion: `x` goes after every earlier element with a
key strictly greater than its own, and before the first element whose key is
less than or equal (so key-equal elements keep input order). -/
def rIns (x : ScreenResult) : List ScreenResult → List ScreenResult
  | [] => [x]
  | y :: ys => if klt (rkey x) (rkey y) then y :: rIns x ys else x :: y :: ys

/-- Stable descending sort by `rkey`, embedding
`results.sort(key=..., reverse=True)`. -/
def sortResults : List ScreenResult → List ScreenResult
  | [] => []
  | x :: xs => rIns x (sortResults xs)

/-- The ranked top-K: `results.sort(...); top = results[:7]`. -/
def rank (l : List ScreenResult) : List ScreenResult :=
  (sortResults l).take TOP_K

/-! ## The run: `main` -/

/-- The message handed to the notification transport: either the fixed
"no signal" text or the report rendered from the ranked top list. -/
inductive Msg where
  | noSignal : Msg
  | report : List ScreenResult → Msg
deriving DecidableEq, Repr

/-- Observable outcome of one run: final throttle state, whether
`save_state` ran, whether the tickers endpoint (Universe Selector) was
consulted, which instruments reached `analyze_inst`, and the message sent. -/
structure RunResult where
  state : ThrottleState
  saved : Bool
  universeCalled : Bool
  analyzed : List String
  message : Option Msg
deriving DecidableEq, Repr

/-- The date-rollover block: if the persisted date is not today, set today's
date, reset `sent` to 0 and clear the cooldown dict. -/
def rollover (today : String) (s : ThrottleState) : ThrottleState :=
  if s.date ≠ today then { date := today, sent := 0, cooldown := [] } else s

/-- The per-instrument cooldown check of the main loop: given the stored
cooldown entry for an instrument, decide whether it proceeds to analysis.
Fail-open: a missing, falsy, or unparseable entry admits the instrument;
otherwise it is skipped exactly when `now < expiry`. -/
def cooldownPass (parse : String → Option ℚ) (now : ℚ) :
    Option String → Bool
  | none => true
  | some cd =>
      if cd = "" then true
      else
        match parse cd with
        | none => true
        | some t => ! decide (now < t)

/-- The instruments of the selected universe that pass the cooldown check and
therefore reach `analyze_inst` (the body of the main loop before `try`). -/
def eligibleOf (parse : String → Option ℚ) (now : ℚ)
    (cd : List (String × String)) (tickers : List TickerRow) : List String :=
  (list_usdt_spot tickers).filter fun i => cooldownPass parse now (alookup i cd)

/-- One run of `main`, from the loaded state to the saved state and emitted
message.  `parse`/`fmtTs` embed the ISO-8601 timestamp codec
(`datetime.fromisoformat` after the `Z` fixup, and `isoformat`), `tickers`
the tickers payload, `analyzeOf` the combined candle-fetch-and-analysis of
one instrument (`none` covers both a failed gate and a swallowed exception),
`today` the UTC date string and `now` the UTC instant. -/
def mainRun (parse : String → Option ℚ) (fmtTs : ℚ → String)
    (tickers : List TickerRow) (analyzeOf : String → Option ScreenResult)
    (today : String) (now : ℚ) (s0 : ThrottleState) : RunResult :=
  let s1 := rollover today s0
  if DAILY_ALERT_LIMIT ≤ s1.sent then
    { state := s1, saved := false, universeCalled := false, analyzed := [],
      message := none }
  else
    let eligible := eligibleOf parse now s1.cooldown tickers
    let results := eligible.filterMap analyzeOf
    if results = [] then
      { state := s1, saved := false, universeCalled := true,
        analyzed := eligible, message := some Msg.noSignal }
    else
      let top := (sortResults results).take TOP_K
      let cd1 :=
        top.foldl (fun m x => aset m x.instId (fmtTs (now + cooldownSpan)))
          s1.cooldown
      { state := { date := s1.date, sent := s1.sent + 1, cooldown := cd1 },
        saved := true, universeCalled := true, analyzed := eligible,
        message := some (Msg.report top) }

/-! ## Ordering relations used in the statements -/

/-- Ascending candle order by timestamp. -/
def tsLe (a b : Candle) : Prop := a.ts ≤ b.ts

/-- Strict candle order by timestamp. -/
def tsLt (a b : Candle) : Prop := a.ts < b.ts

instance : IsAntisymm Candle tsLt :=
  ⟨fun _ _ h h2 => absurd (h.trans h2) (lt_irrefl _)⟩

/-- Non-increasing result order: `a` may precede `b` when `b`'s key is at most
`a`'s. -/
def rGe (a b : ScreenResult) : Prop := kle (rkey b) (rkey a)

/-! ## Concrete inputs used to instantiate the theorems -/

/-- A timestamp codec that never parses (cooldown entries are then opaque). -/
def parse0 : String → Option ℚ := fun _ => none

/-- A trivial timestamp printer. -/
def fmt0 : ℚ → String := fun _ => "T"

/-- A codec that parses only the entry "F" (expiring at instant 10). -/
def parse1 : String → Option ℚ := fun s => if s = "F" then some 10 else none

/-- A concrete passing screen result. -/
def r0 : ScreenResult := ⟨"AAA-USDT", 1, 2, 3, 2, 1, 1, 0, 0⟩

/-- A one-instrument ticker payload. -/
def tickers0 : List TickerRow := [⟨"AAA-USDT", 5⟩]

/-- Analysis oracle passing exactly the instrument of `tickers0`. -/
def analyzeOf0 : String → Option ScreenResult :=
  fun i => if i = "AAA-USDT" then some r0 else none

/-- A fresh throttle state. -/
def state0 : ThrottleState := ⟨"", 0, []⟩

/-- Ticker rows out of descending traded-value order, with a zero value. -/
def cexTickers : List TickerRow :=
  [⟨"B-USDT", 1⟩, ⟨"A-USDT", 5⟩, ⟨"C-USDT", 0⟩]

/-- The same instrument ids as `cexTickers` with different traded values. -/
def cexTickersAlt : List TickerRow :=
  [⟨"B-USDT", 2⟩, ⟨"A-USDT", 7⟩, ⟨"C-USDT", 1⟩]

/-- A concrete candle with timestamp 1. -/
def c1 : Candle := ⟨1, 1, 1, 1, 1, 1, 1, some 1⟩

/-- A concrete candle with timestamp 2. -/
def c2 : Candle := ⟨2, 2, 2, 2, 2, 2, 2, some 2⟩

/-! ## Lemmas on the key order -/

theorem klt_irrefl (a : ℚ × ℚ × ℚ) : ¬ klt a a := by
  simp [klt]

theorem klt_or_kle (a b : ℚ × ℚ × ℚ) : klt a b ∨ kle b a := by
  obtain ⟨a1, a2, a3⟩ := a
  obtain ⟨b1, b2, b3⟩ := b
  rcases lt_trichotomy a1 b1 with h1 | h1 | h1
  · exact Or.inl (Or.inl h1)
  · rcases lt_trichotomy a2 b2 with h2 | h2 | h2
    · exact Or.inl (Or.inr ⟨h1, Or.inl h2⟩)
    · rcases lt_trichotomy a3 b3 with h3 | h3 | h3
      · exact Or.inl (Or.inr ⟨h1, Or.inr ⟨h2, h3⟩⟩)
      · subst h1; subst h2; subst h3; exact Or.inr (Or.inr rfl)
      · exact Or.inr (Or.inl (Or.inr ⟨h1.symm, Or.inr ⟨h2.symm, h3⟩⟩))
    · exact Or.inr (Or.inl (Or.inr ⟨h1.symm, Or.inl h2⟩))
  · exact Or.inr (Or.inl (Or.inl h1))

theorem klt_trans {a b c : ℚ × ℚ × ℚ} (hab : klt a b) (hbc : klt b c) :
    klt a c := by
  obtain ⟨a1, a2, a3⟩ := a
  obtain ⟨b1, b2, b3⟩ := b
  obtain ⟨c1, c2, c3⟩ := c
  rcases hab with h1 | ⟨h1, hab2⟩
  · rcases hbc with g1 | ⟨g1, _⟩
    · exact Or.inl (h1.trans g1)
    · exact Or.inl (g1 ▸ h1)
  · rcases hbc with g1 | ⟨g1, hbc2⟩
    · exact Or.inl (h1 ▸ g1)
    · refine Or.inr ⟨h1.trans g1, ?_⟩
      rcases hab2 with h2 | ⟨h2, h3⟩
      · rcases hbc2 with g2 | ⟨g2, _⟩
        · exact Or.inl (h2.trans g2)
        · exact Or.inl (g2 ▸ h2)
      · rcases hbc2 with g2 | ⟨g2, g3⟩
        · exact Or.inl (h2 ▸ g2)
        · exact Or.inr ⟨h2.trans g2, h3.trans g3⟩

theorem kle_trans {a b c : ℚ × ℚ × ℚ} (hab : kle a b) (hbc : kle b c) :
    kle a c := by
  rcases hab with hab | rfl
  · rcases hbc with hbc | rfl
    · exact Or.inl (klt_trans hab hbc)
    · exact Or.inl hab
  · exact hbc

theorem klt_ne {a b : ℚ × ℚ × ℚ} (h : klt a b) : a ≠ b := by
  rintro rfl
  exact klt_irrefl a h

/-! ## Lemmas on the descending stable sort -/

theorem rIns_perm (x : ScreenResult) (l : List ScreenResult) :
    List.Perm (rIns x l) (x :: l) := by
  induction l with
  | nil => simp [rIns]
  | cons y ys ih =>
    simp only [rIns]
    split
    · exact (ih.cons y).trans (List.Perm.swap x y ys)
    · exact List.Perm.refl _

theorem sortResults_perm (l : List ScreenResult) : List.Perm (sortResults l) l := by
  induction l with
  | nil => simp [sortResults]
  | cons x xs ih => exact (rIns_perm x (sortResults xs)).trans (ih.cons x)

theorem mem_rIns {z x : ScreenResult} {l : List ScreenResult} :
    z ∈ rIns x l ↔ z = x ∨ z ∈ l := by
  rw [(rIns_perm x l).mem_iff, List.mem_cons]

theorem rIns_pairwise {x : ScreenResult} {l : List ScreenResult}
    (h : l.Pairwise rGe) : (rIns x l).Pairwise rGe := by
  induction l with
  | nil => simp [rIns, rGe]
  | cons y ys ih =>
    rw [List.pairwise_cons] at h
    obtain ⟨h1, h2⟩ := h
    simp only [rIns]
    split
    · rename_i hx
      refine List.Pairwise.cons ?_ (ih h2)
      intro z hz
      rcases mem_rIns.mp hz with rfl | hzys
      · exact Or.inl hx
      · exact h1 z hzys
    · rename_i hx
      have hyx : kle (rkey y) (rkey x) :=
        (klt_or_kle (rkey x) (rkey y)).resolve_left hx
      refine List.Pairwise.cons ?_ (List.Pairwise.cons h1 h2)
      intro z hz
      rcases List.mem_cons.mp hz with rfl | hzys
      · exact hyx
      · exact kle_trans (h1 z hzys) hyx

theorem sortResults_pairwise (l : List ScreenResult) :
    (sortResults l).Pairwise rGe := by
  induction l with
  | nil => simp [sortResults]
  | cons x xs ih => exact rIns_pairwise ih

theorem rIns_filter_eq {x : ScreenResult} {q : ℚ × ℚ × ℚ}
    (hx : rkey x = q) (l : List ScreenResult) :
    (rIns x l).filter (fun z => decide (rkey z = q)) =
      x :: l.filter (fun z => decide (rkey z = q)) := by
  induction l with
  | nil => simp [rIns, hx]
  | cons y ys ih =>
    simp only [rIns]
    split
    · rename_i hk
      have hy : rkey y ≠ q := by
        intro hyq
        exact klt_ne (hx ▸ hyq ▸ hk) rfl
      simp [List.filter, hy, ih]
    · simp [List.filter, hx]

theorem rIns_filter_ne {x : ScreenResult} {q : ℚ × ℚ × ℚ}
    (hx : rkey x ≠ q) (l : List ScreenResult) :
    (rIns x l).filter (fun z => decide (rkey z = q)) =
      l.filter (fun z => decide (rkey z = q)) := by
  induction l with
  | nil => simp [rIns, hx]
  | cons y ys ih =>
    simp only [rIns]
    split
    · simp [List.filter, ih]
    · simp [List.filter, hx]

theorem sortResults_filter (l : List ScreenResult) (q : ℚ × ℚ × ℚ) :
    (sortResults l).filter (fun z => decide (rkey z = q)) =
      l.filter (fun z => decide (rkey z = q)) := by
  induction l with
  | nil => simp [sortResults]
  | cons x xs ih =>
    simp only [sortResults]
    by_cases hx : rkey x = q
    · rw [rIns_filter_eq hx, ih]
      simp [List.filter, hx]
    · rw [rIns_filter_ne hx, ih]
      simp [List.filter, hx]

/-! ## Lemmas on the ascending timestamp sort -/

theorem insertTs_perm (x : Candle) (l : List Candle) :
    List.Perm (insertTs x l) (x :: l) := by
  induction l with
  | nil => simp [insertTs]
  | cons y ys ih =>
    simp only [insertTs]
    split
    · exact (ih.cons y).trans (List.Perm.swap x y ys)
    · exact List.Perm.refl _

theorem sortByTs_perm (l : List Candle) : List.Perm (sortByTs l) l := by
  induction l with
  | nil => simp [sortByTs]
  | cons x xs ih => exact (insertTs_perm x (sortByTs xs)).trans (ih.cons x)

theorem mem_insertTs {z x : Candle} {l : List Candle} :
    z ∈ insertTs x l ↔ z = x ∨ z ∈ l := by
  rw [(insertTs_perm x l).mem_iff, List.mem_cons]

theorem insertTs_pairwise {x : Candle} {l : List Candle}
    (h : l.Pairwise tsLe) : (insertTs x l).Pairwise tsLe := by
  induction l with
  | nil => simp [insertTs, tsLe]
  | cons y ys ih =>
    rw [List.pairwise_cons] at h
    obtain ⟨h1, h2⟩ := h
    simp only [insertTs]
    split
    · rename_i hx
      refine List.Pairwise.cons ?_ (ih h2)
      intro z hz
      rcases mem_insertTs.mp hz with rfl | hzys
      · exact hx
      · exact h1 z hzys
    · rename_i hx
      have hxy : x.ts ≤ y.ts := le_of_lt (lt_of_not_le hx)
      refine List.Pairwise.cons ?_ (List.Pairwise.cons h1 h2)
      intro z hz
      rcases List.mem_cons.mp hz with rfl | hzys
      · exact hxy
      · exact le_trans hxy (h1 z hzys)

theorem sortByTs_pairwise (l : List Candle) : (sortByTs l).Pairwise tsLe := by
  induction l with
  | nil => simp [sortByTs]
  | cons x xs ih => exact insertTs_pairwise ih

theorem sortByTs_eq_of_perm {raw raw' : List Candle} (h : List.Perm raw raw')
    (hnd : (raw.map Candle.ts).Nodup) : sortByTs raw = sortByTs raw' := by
  have p1 := sortByTs_perm raw
  have p2 := sortByTs_perm raw'
  have hp : List.Perm (sortByTs raw) (sortByTs raw') := p1.trans (h.trans p2.symm)
  have nd1 : ((sortByTs raw).map Candle.ts).Nodup :=
    ((p1.map Candle.ts).nodup_iff).mpr hnd
  have nd2 : ((sortByTs raw').map Candle.ts).Nodup :=
    ((p2.map Candle.ts).nodup_iff).mpr (((h.map Candle.ts).nodup_iff).mp hnd)
  have s1 : (sortByTs raw).Pairwise tsLt := by
    have := (sortByTs_pairwise raw).and (List.pairwise_map.mp nd1)
    exact this.imp fun hab => lt_of_le_of_ne hab.1 hab.2
  have s2 : (sortByTs raw').Pairwise tsLt := by
    have := (sortByTs_pairwise raw').and (List.pairwise_map.mp nd2)
    exact this.imp fun hab => lt_of_le_of_ne hab.1 hab.2
  exact List.eq_of_perm_of_sorted hp s1 s2

/-! ## Lemmas on the cooldown dict -/

theorem alookup_aset_self (m : List (String × String)) (k v : String) :
    alookup k (aset m k v) = some v := by
  induction m with
  | nil => simp [aset, alookup]
  | cons p rest ih =>
    obtain ⟨k1, v1⟩ := p
    simp only [aset]
    split
    · simp_all [alookup]
    · simp_all [alookup]

theorem alookup_aset_ne (m : List (String × String)) {k j : String}
    (v : String) (h : j ≠ k) : alookup j (aset m k v) = alookup j m := by
  induction m with
  | nil =>
    simp only [aset, alookup]
    rw [if_neg (fun hk => h hk.symm)]
  | cons p rest ih =>
    obtain ⟨k1, v1⟩ := p
    simp only [aset]
    split
    · rename_i hk1
      subst hk1
      simp only [alookup]
      rw [if_neg (fun hk => h hk.symm), if_neg (fun hk => h hk.symm)]
    · simp only [alookup]
      split
      · rfl
      · exact ih

theorem foldl_aset_not_mem (v : String) (xs : List ScreenResult) :
    ∀ (m : List (String × String)) (i : String),
      i ∉ xs.map ScreenResult.instId →
      alookup i (xs.foldl (fun m x => aset m x.instId v) m) = alookup i m := by
  induction xs with
  | nil => intro m i _; rfl
  | cons x rest ih =>
    intro m i hi
    simp only [List.map_cons, List.mem_cons] at hi
    push_neg at hi
    simp only [List.foldl_cons]
    rw [ih _ i hi.2, alookup_aset_ne _ _ hi.1]

theorem foldl_aset_mem (v : String) (xs : List ScreenResult) :
    ∀ (m : List (String × String)) (i : String),
      i ∈ xs.map ScreenResult.instId →
      alookup i (xs.foldl (fun m x => aset m x.instId v) m) = some v := by
  induction xs with
  | nil => intro m i hi; simp at hi
  | cons x rest ih =>
    intro m i hi
    simp only [List.foldl_cons]
    by_cases hr : i ∈ rest.map ScreenResult.instId
    · exact ih _ i hr
    · simp only [List.map_cons, List.mem_cons] at hi
      rcases hi with hi | hi
      · subst hi
        rw [foldl_aset_not_mem v rest _ _ hr, alookup_aset_self]
      · exact absurd hi hr

/-! ## Lemmas on candle preprocessing -/

theorem get_candles_length (raw : List Candle) :
    (get_candles raw).length = raw.length := by
  have hl := (sortByTs_perm raw).length_eq
  unfold get_candles
  split_ifs
  · exact hl
  · rw [List.length_map]; exact hl
  · exact hl

theorem get_candles_eq_of_perm {raw raw' : List Candle}
    (h : List.Perm raw raw') (hnd : (raw.map Candle.ts).Nodup) :
    get_candles raw = get_candles raw' := by
  unfold get_candles
  rw [sortByTs_eq_of_perm h hnd]

/-- The Universe Selector reads nothing but the instrument-id column. -/
theorem list_usdt_spot_eq_ids (d : List TickerRow) :
    list_usdt_spot d =
      ((d.map TickerRow.instId).filter tickerKeep).take MAX_SYMBOLS := by
  unfold list_usdt_spot
  rw [List.filter_map]
  simp only [Function.comp_def]

/-! ## Claim theorems -/

/-- C8: for every candle window shorter than
`EMA_SLOW + VOL_BASELINE + VOL_SPIKE_LOOKBACK + 5`, analysis returns no
feature vector (soft skip) and performs no whale-trade fetch. -/
theorem insufficient_history_soft_skip (instId : String) (raw : List Candle)
    (tr : Option (List Trade)) (hlen : raw.length < MIN_LEN) :
    analyze_inst instId raw tr = (none, false) := by
  have h : (get_candles raw).length < MIN_LEN := by
    rw [get_candles_length]
    exact hlen
  simp only [analyze_inst]
  rw [if_pos h]

/-- Witness for C8 at the empty candle list. -/
theorem insufficient_history_soft_skip_witness :
    ([] : List Candle).length < MIN_LEN ∧
      analyze_inst "BTC-USDT" [] none = (none, false) :=
  ⟨by decide, insufficient_history_soft_skip "BTC-USDT" [] none (by decide)⟩

/-- C9: whenever the baseline-window volume average is non-positive, the
instrument is excluded (no result), regardless of any gate values. -/
theorem nonpositive_baseline_excluded (instId : String) (raw : List Candle)
    (tr : Option (List Trade)) (hbase : baseAvg (get_candles raw) ≤ 0) :
    (analyze_inst instId raw tr).1 = none := by
  simp only [analyze_inst]
  by_cases hl : (get_candles raw).length < MIN_LEN
  · rw [if_pos hl]
  · rw [if_neg hl, if_pos hbase]

/-- Witness for C9 at the empty candle list (baseline average 0). -/
theorem nonpositive_baseline_excluded_witness :
    baseAvg (get_candles ([] : List Candle)) ≤ 0 ∧
      (analyze_inst "ETH-USDT" [] none).1 = none :=
  ⟨by simp [baseAvg, get_candles, sortByTs, volqCol, baseSlice, listMean],
    nonpositive_baseline_excluded "ETH-USDT" [] none
      (by simp [baseAvg, get_candles, sortByTs, volqCol, baseSlice, listMean])⟩

/-- C7: the analysis yields a result exactly when history suffices, the
baseline is positive and all four gates (strict trend chain, minimum
return, minimum volume-spike ratio, minimum last-candle ratio) pass; and the
whale-flow trade fetch is performed exactly in that same case, never for an
instrument failing any gate. -/
theorem filter_gates_iff_whale_on_pass (instId : String) (raw : List Candle)
    (tr : Option (List Trade)) :
    ((analyze_inst instId raw tr).2 = true ↔
      MIN_LEN ≤ (get_candles raw).length ∧ 0 < baseAvg (get_candles raw) ∧
        gatesPass (get_candles raw)) ∧
    ((analyze_inst instId raw tr).1.isSome = true ↔
      MIN_LEN ≤ (get_candles raw).length ∧ 0 < baseAvg (get_candles raw) ∧
        gatesPass (get_candles raw)) := by
  simp only [analyze_inst]
  by_cases h1 : (get_candles raw).length < MIN_LEN
  · rw [if_pos h1]
    have hnp : ¬ (MIN_LEN ≤ (get_candles raw).length ∧
        0 < baseAvg (get_candles raw) ∧ gatesPass (get_candles raw)) := by
      rintro ⟨hle, -, -⟩
      exact absurd hle (not_le.mpr h1)
    simp [hnp]
  · rw [if_neg h1]
    by_cases h2 : baseAvg (get_candles raw) ≤ 0
    · rw [if_pos h2]
      have hnp : ¬ (MIN_LEN ≤ (get_candles raw).length ∧
          0 < baseAvg (get_candles raw) ∧ gatesPass (get_candles raw)) := by
        rintro ⟨-, hpos, -⟩
        exact absurd h2 (not_le.mpr hpos)
      simp [hnp]
    · rw [if_neg h2]
      by_cases h3 : trendUp (get_candles raw)
      · rw [if_neg (not_not_intro h3)]
        by_cases h4 : retOf (get_candles raw) < MIN_4H_RETURN_PCT
        · rw [if_pos h4]
          have hnp : ¬ (MIN_LEN ≤ (get_candles raw).length ∧
              0 < baseAvg (get_candles raw) ∧ gatesPass (get_candles raw)) := by
            rintro ⟨-, -, hg⟩
            unfold gatesPass at hg
            exact absurd hg.2.1 (not_le.mpr h4)
          simp [hnp]
        · rw [if_neg h4]
          by_cases h5 : volROf (get_candles raw) < VOL_RATIO_MIN
          · rw [if_pos h5]
            have hnp : ¬ (MIN_LEN ≤ (get_candles raw).length ∧
                0 < baseAvg (get_candles raw) ∧
                  gatesPass (get_candles raw)) := by
              rintro ⟨-, -, hg⟩
              unfold gatesPass at hg
              exact absurd hg.2.2.1 (not_le.mpr h5)
            simp [hnp]
          · rw [if_neg h5]
            by_cases h6 : lastROf (get_candles raw) < LAST_CANDLE_RATIO_MIN
            · rw [if_pos h6]
              have hnp : ¬ (MIN_LEN ≤ (get_candles raw).length ∧
                  0 < baseAvg (get_candles raw) ∧
                    gatesPass (get_candles raw)) := by
                rintro ⟨-, -, hg⟩
                unfold gatesPass at hg
                exact absurd hg.2.2.2 (not_le.mpr h6)
              simp [hnp]
            · rw [if_neg h6]
              have hg : gatesPass (get_candles raw) := by
                unfold gatesPass
                exact ⟨h3, not_lt.mp h4, not_lt.mp h5, not_lt.mp h6⟩
              have hp : MIN_LEN ≤ (get_candles raw).length ∧
                  0 < baseAvg (get_candles raw) ∧
                    gatesPass (get_candles raw) :=
                ⟨not_lt.mp h1, lt_of_not_le h2, hg⟩
              simp [hp, ENABLE_WHALE]
      · rw [if_pos h3]
        have hnp : ¬ (MIN_LEN ≤ (get_candles raw).length ∧
            0 < baseAvg (get_candles raw) ∧ gatesPass (get_candles raw)) := by
          rintro ⟨-, -, hg⟩
          unfold gatesPass at hg
          exact h3 hg.1
        simp [hnp]

/-- C2: loading a state dated differently from today resets the counter and
clears all cooldowns before the admission check, and a (post-reset) counter
at or above the daily limit terminates the run with no universe fetch and no
instrument analyzed. -/
theorem rollover_reset_and_daily_limit_early_exit
    (parse : String → Option ℚ) (fmtTs : ℚ → String) (tickers : List TickerRow)
    (analyzeOf : String → Option ScreenResult) (today : String) (now : ℚ)
    (s0 : ThrottleState) :
    (s0.date ≠ today →
      rollover today s0 = { date := today, sent := 0, cooldown := [] }) ∧
    (DAILY_ALERT_LIMIT ≤ (rollover today s0).sent →
      mainRun parse fmtTs tickers analyzeOf today now s0 =
        { state := rollover today s0, saved := false, universeCalled := false,
          analyzed := [], message := none }) := by
  constructor
  · intro h
    unfold rollover
    rw [if_pos h]
  · intro h
    simp only [mainRun]
    rw [if_pos h]

/-- Witness for C2: a stale date is reset; a same-day state at the limit
makes the run exit with no universe call and nothing analyzed. -/
theorem rollover_reset_and_daily_limit_early_exit_witness :
    (("2026-10-11" : String) ≠ "2026-10-12" ∧
      rollover "2026-10-12" ⟨"2026-10-11", 1, [("X", "T")]⟩ =
        { date := "2026-10-12", sent := 0, cooldown := [] }) ∧
    (DAILY_ALERT_LIMIT ≤ (rollover "2026-10-12" ⟨"2026-10-12", 3, []⟩).sent ∧
      mainRun parse0 fmt0 [] (fun _ => none) "2026-10-12" 0
          ⟨"2026-10-12", 3, []⟩ =
        { state := rollover "2026-10-12" ⟨"2026-10-12", 3, []⟩, saved := false,
          universeCalled := false, analyzed := [], message := none }) :=
  ⟨⟨by decide,
      (rollover_reset_and_daily_limit_early_exit parse0 fmt0 [] (fun _ => none)
          "2026-10-12" 0 ⟨"2026-10-11", 1, [("X", "T")]⟩).1 (by decide)⟩,
    ⟨by decide,
      (rollover_reset_and_daily_limit_early_exit parse0 fmt0 [] (fun _ => none)
          "2026-10-12" 0 ⟨"2026-10-12", 3, []⟩).2 (by decide)⟩⟩

/-- C3: the cooldown gate is fail-open: a missing entry admits the
instrument; an unparseable entry admits it; a parsed entry skips it exactly
when its expiry is strictly in the future; and, below the daily limit, the
instruments reaching analysis are exactly the universe filtered by this
gate. -/
theorem cooldown_gate_fail_open (parse : String → Option ℚ) (now t : ℚ)
    (cd : String) (hparse0 : parse "" = none) :
    cooldownPass parse now none = true ∧
    (parse cd = none → cooldownPass parse now (some cd) = true) ∧
    (parse cd = some t → (cooldownPass parse now (some cd) = false ↔ now < t)) ∧
    (∀ (fmtTs : ℚ → String) (tickers : List TickerRow)
        (analyzeOf : String → Option ScreenResult) (today : String)
        (s0 : ThrottleState),
      (rollover today s0).sent < DAILY_ALERT_LIMIT →
        (mainRun parse fmtTs tickers analyzeOf today now s0).analyzed =
          eligibleOf parse now (rollover today s0).cooldown tickers) := by
  refine ⟨rfl, ?_, ?_, ?_⟩
  · intro h
    by_cases hc : cd = ""
    · simp [cooldownPass, hc]
    · simp [cooldownPass, hc, h]
  · intro h
    have hc : cd ≠ "" := by
      rintro rfl
      rw [hparse0] at h
      exact Option.noConfusion h
    simp [cooldownPass, hc, h]
  · intro fmtTs tickers analyzeOf today s0 hadm
    simp only [mainRun]
    rw [if_neg (not_le.mpr hadm)]
    split <;> rfl

/-- Witness for C3: at instant 0, an entry parsing to expiry 10 is skipped,
while the never-parsing codec admits everything. -/
theorem cooldown_gate_fail_open_witness :
    parse1 "" = none ∧ parse1 "F" = some 10 ∧
      (cooldownPass parse1 0 (some "F") = false ↔ (0 : ℚ) < 10) :=
  ⟨by decide, by decide,
    (cooldown_gate_fail_open parse1 0 10 "F" (by decide)).2.2.1 (by decide)⟩

/-- C4 counterexample: the Universe Selector emits instruments in source
order (1 before 5, not descending by traded value) and keeps an instrument
whose traded value is 0 (not strictly positive), refuting the claimed
ordering and positivity filter. -/
theorem universe_claim_counterexample :
    list_usdt_spot cexTickers = ["B-USDT", "A-USDT", "C-USDT"] ∧
    cexTickers.map TickerRow.volCcy24h = [1, 5, 0] ∧
    ¬ ((5 : ℚ) ≤ 1) ∧ ¬ ((0 : ℚ) > 0) := by
  refine ⟨by decide, by decide, by norm_num, by norm_num⟩

/-- C4 (amended): the Universe Selector keeps exactly the source ids ending
in the quote suffix whose base is not a stable, in original source order,
truncated to the first `MAX_SYMBOLS` (the equality conjunct is the full
sound-and-complete characterization); consequently its output is a sublist
of the source id sequence, every output id matches the filter, its length is
at most `MAX_SYMBOLS`, and traded value is ignored entirely (same ids give
the same output whatever the values). -/
theorem universe_source_order_ignores_value (d d' : List TickerRow) :
    list_usdt_spot d =
      ((d.map TickerRow.instId).filter tickerKeep).take MAX_SYMBOLS ∧
    (list_usdt_spot d).Sublist (d.map TickerRow.instId) ∧
    (∀ i ∈ list_usdt_spot d, strEndsWith i ("-" ++ QUOTE) = true ∧
      isStableBase i = false) ∧
    (list_usdt_spot d).length ≤ MAX_SYMBOLS ∧
    (d.map TickerRow.instId = d'.map TickerRow.instId →
      list_usdt_spot d = list_usdt_spot d') := by
  refine ⟨list_usdt_spot_eq_ids d, ?_, ?_, ?_, ?_⟩
  · unfold list_usdt_spot
    exact (List.take_sublist _ _).trans
      ((List.filter_sublist d).map TickerRow.instId)
  · intro i hi
    unfold list_usdt_spot at hi
    have hi2 := List.mem_of_mem_take hi
    obtain ⟨row, hrow, rfl⟩ := List.mem_map.mp hi2
    have hk := (List.mem_filter.mp hrow).2
    unfold tickerKeep at hk
    simp only [Bool.and_eq_true, Bool.not_eq_true'] at hk
    exact hk
  · exact List.length_take_le _ _
  · intro h
    rw [list_usdt_spot_eq_ids, list_usdt_spot_eq_ids, h]

/-- Witness for C4 (amended): the same ids with different traded values give
the identical universe. -/
theorem universe_source_order_ignores_value_witness :
    cexTickers.map TickerRow.instId = cexTickersAlt.map TickerRow.instId ∧
      list_usdt_spot cexTickers = list_usdt_spot cexTickersAlt :=
  ⟨by decide,
    (universe_source_order_ignores_value cexTickers cexTickersAlt).2.2.2.2
      (by decide)⟩

/-- C5 counterexample: a run whose only mutation is the date-rollover reset
(empty universe, so no results) changes the in-memory state but never calls
`save_state`, refuting "saved at run end whenever mutated". -/
theorem state_mutated_but_not_saved_counterexample :
    (mainRun parse0 fmt0 [] (fun _ => none) "2026-10-12" 0
        ⟨"2026-10-11", 0, []⟩).state ≠ ⟨"2026-10-11", 0, []⟩ ∧
    (mainRun parse0 fmt0 [] (fun _ => none) "2026-10-12" 0
        ⟨"2026-10-11", 0, []⟩).saved = false := by
  refine ⟨by decide, by decide⟩

/-- C5 (amended): the state is saved at run end exactly when the run passes
the admission check and its analysis results are non-empty (a signal
notification is sent); rollover-only mutations in limit-exit or no-signal
runs are not persisted. -/
theorem state_saved_iff_signal_sent (parse : String → Option ℚ)
    (fmtTs : ℚ → String) (tickers : List TickerRow)
    (analyzeOf : String → Option ScreenResult) (today : String) (now : ℚ)
    (s0 : ThrottleState) :
    (mainRun parse fmtTs tickers analyzeOf today now s0).saved = true ↔
      ((rollover today s0).sent < DAILY_ALERT_LIMIT ∧
        (eligibleOf parse now (rollover today s0).cooldown
            tickers).filterMap analyzeOf ≠ []) := by
  simp only [mainRun]
  by_cases h : DAILY_ALERT_LIMIT ≤ (rollover today s0).sent
  · rw [if_pos h]
    simp [not_lt.mpr h]
  · rw [if_neg h]
    split
    · rename_i hr
      simp [hr]
    · rename_i hr
      simp [hr, not_le.mp h]

/-- C6: the ranked output is sorted non-increasing in the lexicographic
composite key (volume ratio, return, net whale flow), has length at most
`TOP_K`, is a permutation of the full input when fewer than `TOP_K` passed,
and the sort is stable: key-equal results keep their input order. -/
theorem ranker_sorted_topk_stable (l : List ScreenResult) :
    (rank l).Pairwise rGe ∧
    (rank l).length ≤ TOP_K ∧
    (l.length < TOP_K → List.Perm (rank l) l) ∧
    (∀ q : ℚ × ℚ × ℚ,
      (sortResults l).filter (fun z => decide (rkey z = q)) =
        l.filter (fun z => decide (rkey z = q))) := by
  refine ⟨?_, ?_, ?_, sortResults_filter l⟩
  · exact (sortResults_pairwise l).sublist (List.take_sublist _ _)
  · exact List.length_take_le _ _
  · intro h
    unfold rank
    rw [List.take_of_length_le]
    · exact sortResults_perm l
    · rw [(sortResults_perm l).length_eq]
      exact le_of_lt h

/-- Witness for C6 on a two-element input (fewer than `TOP_K`). -/
theorem ranker_sorted_topk_stable_witness :
    ([r0, r0] : List ScreenResult).length < TOP_K ∧
      List.Perm (rank [r0, r0]) [r0, r0] :=
  ⟨by decide, (ranker_sorted_topk_stable [r0, r0]).2.2.1 (by decide)⟩

/-- C10: candle preprocessing sorts ascending by timestamp, so on raw inputs
with distinct timestamps the analysis result is invariant under any
permutation of the raw candle order. -/
theorem candle_order_invariance (instId : String) (raw raw' : List Candle)
    (tr : Option (List Trade)) (hperm : List.Perm raw raw')
    (hnd : (raw.map Candle.ts).Nodup) :
    analyze_inst instId raw tr = analyze_inst instId raw' tr ∧
    (get_candles raw).Pairwise tsLe := by
  constructor
  · have h := get_candles_eq_of_perm hperm hnd
    simp only [analyze_inst, h]
  · unfold get_candles
    split_ifs
    · exact sortByTs_pairwise raw
    · refine List.pairwise_map.mpr ?_
      exact (sortByTs_pairwise raw).imp fun h => h
    · exact sortByTs_pairwise raw

/-- Witness for C10: swapping two distinct-timestamp candles leaves the
analysis unchanged. -/
theorem candle_order_invariance_witness :
    List.Perm [c1, c2] [c2, c1] ∧ ([c1, c2].map Candle.ts).Nodup ∧
      analyze_inst "SOL-USDT" [c1, c2] none =
        analyze_inst "SOL-USDT" [c2, c1] none :=
  ⟨List.Perm.swap c2 c1 [], by decide,
    (candle_order_invariance "SOL-USDT" [c1, c2] [c2, c1] none
        (List.Perm.swap c2 c1 []) (by decide)).1⟩

/-- C1: in a run that passes the admission check, when the analysis results
are non-empty the rendered top-K report is sent, the sent counter rises by
exactly one (however many instruments are reported), every reported
instrument's cooldown is set to now plus the cooldown span, and no other
cooldown entry changes; when the results are empty a no-signal message is
sent, the counter is unchanged and no cooldown is set. -/
theorem throttle_update_on_send (parse : String → Option ℚ)
    (fmtTs : ℚ → String) (tickers : List TickerRow)
    (analyzeOf : String → Option ScreenResult) (today : String) (now : ℚ)
    (s0 : ThrottleState) (s1 : ThrottleState) (hs1 : s1 = rollover today s0)
    (results : List ScreenResult)
    (hres : results =
      (eligibleOf parse now s1.cooldown tickers).filterMap analyzeOf)
    (top : List ScreenResult) (htop : top = (sortResults results).take TOP_K)
    (out : RunResult)
    (hout : out = mainRun parse fmtTs tickers analyzeOf today now s0)
    (hadm : s1.sent < DAILY_ALERT_LIMIT) :
    (results ≠ [] →
      out.message = some (Msg.report top) ∧
      out.saved = true ∧
      out.state.sent = s1.sent + 1 ∧
      (∀ i, i ∈ top.map ScreenResult.instId →
        alookup i out.state.cooldown = some (fmtTs (now + cooldownSpan))) ∧
      (∀ i, i ∉ top.map ScreenResult.instId →
        alookup i out.state.cooldown = alookup i s1.cooldown)) ∧
    (results = [] →
      out.message = some Msg.noSignal ∧ out.state = s1 ∧ out.saved = false) := by
  subst hs1
  subst hres
  subst htop
  subst hout
  simp only [mainRun]
  rw [if_neg (not_le.mpr hadm)]
  constructor
  · intro hne
    rw [if_neg hne]
    refine ⟨rfl, rfl, rfl, ?_, ?_⟩
    · intro i hi
      exact foldl_aset_mem _ _ _ _ hi
    · intro i hi
      exact foldl_aset_not_mem _ _ _ _ hi
  · intro he
    rw [if_pos he]
    exact ⟨rfl, rfl, rfl⟩

/-- Witness for C1: a one-instrument run sends a report and bumps the
counter from 0 to 1. -/
theorem throttle_update_on_send_witness :
    (rollover "2026-10-12" state0).sent < DAILY_ALERT_LIMIT ∧
    (eligibleOf parse0 0 (rollover "2026-10-12" state0).cooldown
        tickers0).filterMap analyzeOf0 ≠ [] ∧
    (mainRun parse0 fmt0 tickers0 analyzeOf0 "2026-10-12" 0 state0).state.sent =
      (rollover "2026-10-12" state0).sent + 1 :=
  ⟨by decide, by decide,
    ((throttle_update_on_send parse0 fmt0 tickers0 analyzeOf0 "2026-10-12" 0
          state0 _ rfl _ rfl _ rfl _ rfl (by decide)).1 (by decide)).2.2.1⟩

end Whale4h
